import Mathlib

/-!
Verification development for the vsdx extraction scripts.

The repository contains two near-duplicate parsing modules.  The module
whose main function is syntactically well formed and actually runnable is
the one embedded here for the pipeline functions (text index, master
geometry cache, shape geometry with master fallback, recursive shape tree
construction, core-component classification and page assembly); the other
module contributes the field-by-field geometry extractor
extract_shape_geometry and the property extractor, which are embedded as
well.  XML documents are modelled after xml.etree.ElementTree: an element
carries a tag, an attribute dictionary, the text before its first child,
its list of child elements, and the tail text following it.  Python
dictionaries are modelled as association lists with overwrite-on-insert,
Python truthiness of an ElementTree element is the presence of at least
one child element, and zip archives are association lists from member
names to parsed XML roots.
-/

namespace Vsdx

/-- Association-list model of a Python dict: lookup of a key. -/
def dGet {κ α : Type} [BEq κ] (m : List (κ × α)) (k : κ) : Option α :=
  (m.find? (fun p => p.1 == k)).map (fun p => p.2)

/-- Lookup with a default value, modelling dict.get(k, d). -/
def dGetD {κ α : Type} [BEq κ] (m : List (κ × α)) (k : κ) (d : α) : α :=
  (dGet m k).getD d

/-- Membership test, modelling the Python expression k in d. -/
def dHas {κ α : Type} [BEq κ] (m : List (κ × α)) (k : κ) : Bool :=
  m.any (fun p => p.1 == k)

/-- Insertion with overwrite, modelling d[k] = v.  The first binding of the
key is replaced in place (dicts built from the empty dict through this
operation bind each key once, as Python dicts do); a new key is appended. -/
def dInsert {κ α : Type} [BEq κ] : List (κ × α) → κ → α → List (κ × α)
  | [], k, v => [(k, v)]
  | p :: m, k, v => if p.1 == k then (k, v) :: m else p :: dInsert m k v

/-- Parsed XML element, after xml.etree.ElementTree: a tag (namespace
prefixes are dropped since every query in the scripts uses the single
visio namespace), the attribute dictionary, the text preceding the first
child, the child elements in document order, and the tail text following
the element. -/
inductive XmlElem where
  | mk (tag : String) (attrs : List (String × String)) (txt : Option String)
      (children : List XmlElem) (tailTxt : Option String) : XmlElem

def XmlElem.tag : XmlElem → String
  | .mk t _ _ _ _ => t

def XmlElem.attrs : XmlElem → List (String × String)
  | .mk _ a _ _ _ => a

def XmlElem.txt : XmlElem → Option String
  | .mk _ _ x _ _ => x

def XmlElem.children : XmlElem → List XmlElem
  | .mk _ _ _ cs _ => cs

def XmlElem.tailTxt : XmlElem → Option String
  | .mk _ _ _ _ tl => tl

/-- Attribute lookup, modelling elem.get(name) with no default. -/
def XmlElem.get (e : XmlElem) (k : String) : Option String :=
  dGet e.attrs k

/-- Attribute lookup with default, modelling elem.get(name, default). -/
def XmlElem.getD (e : XmlElem) (k : String) (d : String) : String :=
  (e.get k).getD d

/-- Truthiness of an ElementTree element: an element tests true exactly
when it has at least one child element (its text is irrelevant). -/
def truthy (e : XmlElem) : Bool :=
  !e.children.isEmpty

/-- Truthiness of the result of elem.find(...): None is false, an element
is true when it has at least one child element. -/
def truthyOpt : Option XmlElem → Bool
  | some e => truthy e
  | none => false

mutual
/-- All proper descendants of an element satisfying a predicate, in
document order, modelling elem.findall with a .// path. -/
def descAll (p : XmlElem → Bool) : XmlElem → List XmlElem
  | .mk _ _ _ cs _ => descAllL p cs
/-- Descendant search over a list of sibling elements. -/
def descAllL (p : XmlElem → Bool) : List XmlElem → List XmlElem
  | [] => []
  | c :: cs => (if p c then [c] else []) ++ descAll p c ++ descAllL p cs
end

/-- First matching descendant, modelling elem.find with a .// path. -/
def findDesc (p : XmlElem → Bool) (e : XmlElem) : Option XmlElem :=
  (descAll p e).head?

/-- Predicate matching a fixed tag. -/
def tagIs (t : String) (e : XmlElem) : Bool :=
  e.tag == t

/-- First direct child with a tag, modelling elem.find with a plain path. -/
def findChild (e : XmlElem) (t : String) : Option XmlElem :=
  e.children.find? (tagIs t)

/-- All direct children with a tag, modelling elem.findall with a plain
path. -/
def childrenTagged (e : XmlElem) (t : String) : List XmlElem :=
  e.children.filter (tagIs t)

mutual
/-- Concatenation of all text inside an element, modelling
the join of elem.itertext(): the element's own leading text, then for
each child its itertext followed by its tail text. -/
def itertext : XmlElem → String
  | .mk _ _ x cs _ => x.getD "" ++ itertextL cs
/-- The itertext contribution of a list of sibling elements. -/
def itertextL : List XmlElem → String
  | [] => ""
  | c :: cs => itertext c ++ (XmlElem.tailTxt c).getD "" ++ itertextL cs
end

/-- Prefix test on character lists, modelling str.startswith. -/
def chStartsWith (s pre : String) : Bool :=
  pre.data.isPrefixOf s.data

/-- Suffix test on character lists, modelling str.endswith. -/
def chEndsWith (s suf : String) : Bool :=
  suf.data.isSuffixOf s.data

/-- Substring search on character lists. -/
def listContainsSub : List Char → List Char → Bool
  | [], pat => pat.isEmpty
  | l@(_ :: cs), pat => pat.isPrefixOf l || listContainsSub cs pat

/-- Substring containment, modelling the Python expression pat in s. -/
def strContains (s pat : String) : Bool :=
  listContainsSub s.data pat.data

/-- Whitespace characters removed by str.strip with no argument (the
ASCII ones; the scripts only ever strip diagram text). -/
def pyIsSpace (c : Char) : Bool :=
  c == ' ' || c == '\t' || c == '\n' || c == '\r' ||
  c == Char.ofNat 11 || c == Char.ofNat 12

/-- Strip of leading and trailing whitespace, modelling str.strip(). -/
def pyStrip (s : String) : String :=
  ⟨((s.data.dropWhile pyIsSpace).reverse.dropWhile pyIsSpace).reverse⟩

/-- Rendering of an optional string inside a Python f-string: None prints
as the four characters None. -/
def pyShow : Option String → String
  | some s => s
  | none => "None"

/-- A zip archive, modelled as the association of member names to their
parsed XML documents, in archive order. -/
abbrev Zip := List (String × XmlElem)

/-- Member-name test, modelling name in zf.namelist(). -/
def zipHas (zf : Zip) (name : String) : Bool :=
  dHas zf name

/-- Opening and parsing a member, modelling ET.parse(zf.open(name)). -/
def zipGet (zf : Zip) (name : String) : Option XmlElem :=
  dGet zf name

/-- The page parts of the archive in archive order: member names starting
with visio/pages/page and ending with .xml. -/
def pageFiles (zf : Zip) : List (String × XmlElem) :=
  zf.filter (fun p => chStartsWith p.1 "visio/pages/page" && chEndsWith p.1 ".xml")

/-- The text index: a Python dict keyed by the raw ID attribute of a shape
(None when the attribute is absent). -/
abbrev TextMap := List (Option String × String)

/-- The label stored by extract_shape_texts for one shape element: the
stripped concatenated inner text of its first Text descendant when that is
non-empty, else the NameU attribute, else the string ID: followed by the
raw id (None printing as None, per the Python f-string). -/
def labelOfShape (s : XmlElem) : String :=
  let text := match findDesc (tagIs "Text") s with
    | some t => pyStrip (itertext t)
    | none => ""
  if text != "" then text
  else XmlElem.getD s "NameU" ("ID:" ++ pyShow (XmlElem.get s "ID"))

/-- Embedding of extract_shape_texts: one pass over every page part, and
for every Shape element found anywhere in the page (including nested) the
binding of its raw id to its resolved label; a later binding of the same
id overwrites the earlier one. -/
def extract_shape_texts (zf : Zip) : TextMap :=
  (pageFiles zf).foldl
    (fun m page =>
      (descAll (tagIs "Shape") page.2).foldl
        (fun m s => dInsert m (XmlElem.get s "ID") (labelOfShape s)) m)
    []

/-- Master geometry record: the four positional fields of the dicts built
by load_master_geometry and get_shape_geometry, each a raw string or the
unknown sentinel. -/
structure MasterGeom where
  x : String
  y : String
  width : String
  height : String
deriving DecidableEq, Repr

/-- The all-unknown sentinel geometry. -/
def unknownMG : MasterGeom :=
  { x := "?", y := "?", width := "?", height := "?" }

/-- The master geometry cache, a Python dict keyed by master id. -/
abbrev Cache := List (String × MasterGeom)

/-- Collection of the Cell descendants of an element whose N attribute is
one of the given names, as a dict from name to the V attribute (default
the unknown sentinel); a later cell with the same name overwrites. -/
def collectCells (names : List String) (e : XmlElem) : List (String × String) :=
  (descAll (tagIs "Cell") e).foldl
    (fun m c =>
      match XmlElem.get c "N" with
      | some n => if names.contains n then dInsert m n (XmlElem.getD c "V" "?") else m
      | none => m)
    []

/-- Embedding of load_master_geometry.  Besides the geometry and the
updated cache it returns how many times the master part was opened and
parsed during the call (0 or 1), the quantity the spec's cache claim is
about.  The cache is consulted only when the master part exists; a parsed
master is cached only when its first Shape descendant carries both a PinX
and a PinY cell. -/
def masterFileName (master_id : String) : String :=
  "visio/masters/master" ++ master_id ++ ".xml"

def load_master_geometry (zf : Zip) (master_id : String) (cache : Cache) :
    MasterGeom × Cache × Nat :=
  let master_file := masterFileName master_id
  match zipGet zf master_file with
  | none => (unknownMG, cache, 0)
  | some root =>
    match dGet cache master_id with
    | some g => (g, cache, 0)
    | none =>
      match findDesc (tagIs "Shape") root with
      | none => (unknownMG, cache, 1)
      | some shape_elem =>
        let cells := collectCells ["PinX", "PinY", "Width", "Height"] shape_elem
        if dHas cells "PinX" && dHas cells "PinY" then
          let geometry : MasterGeom :=
            { x := dGetD cells "PinX" "?"
              y := dGetD cells "PinY" "?"
              width := dGetD cells "Width" "?"
              height := dGetD cells "Height" "?" }
          (geometry, dInsert cache master_id geometry, 1)
        else
          (unknownMG, cache, 1)

/-- Embedding of get_shape_geometry from the runnable module: the shape's
own four positional cells when both PinX and PinY are present, else the
whole master geometry for the declared master id (the Master attribute,
when present and non-empty), else the all-unknown sentinel. -/
def get_shape_geometry (zf : Zip) (cache : Cache) (shape_elem : XmlElem) :
    MasterGeom × Cache :=
  let cells := collectCells ["PinX", "PinY", "Width", "Height"] shape_elem
  if dHas cells "PinX" && dHas cells "PinY" then
    ({ x := dGetD cells "PinX" "?"
       y := dGetD cells "PinY" "?"
       width := dGetD cells "Width" "?"
       height := dGetD cells "Height" "?" }, cache)
  else
    match XmlElem.get shape_elem "Master" with
    | some master_id =>
      if master_id != "" then
        let r := load_master_geometry zf master_id cache
        (r.1, r.2.1)
      else (unknownMG, cache)
    | none => (unknownMG, cache)

/-- Full geometry record built by extract_shape_geometry: position, size,
rotation and flip fields as raw strings, and the optional custom path
outline (a list of geometry sections, each an ordered list of row dicts). -/
structure Geometry where
  x : String
  y : String
  width : String
  height : String
  angle : String
  flip_x : String
  flip_y : String
  path_data : Option (List (List (List (String × String))))
deriving DecidableEq, Repr

/-- One row dict of a geometry section: the row type under the key type,
then every Cell descendant's N attribute mapped to its V attribute. -/
def geoRowOf (row : XmlElem) : List (String × String) :=
  (descAll (tagIs "Cell") row).foldl
    (fun m c => dInsert m (XmlElem.getD c "N" "") (XmlElem.getD c "V" "?"))
    [("type", XmlElem.getD row "T" "")]

/-- The geometry sections of a shape: every Section descendant whose N
attribute starts with Geometry contributes its Row descendants as row
dicts, empty row lists being skipped. -/
def geoSections (e : XmlElem) : List (List (List (String × String))) :=
  ((descAll (tagIs "Section") e).filter
      (fun s => chStartsWith (XmlElem.getD s "N" "") "Geometry")).filterMap
    (fun s =>
      let rows := (descAll (tagIs "Row") s).map geoRowOf
      if rows.isEmpty then none else some rows)

/-- The geometry a shape supplies on its own, before any master fallback:
the positional and size cells default to the unknown sentinel, while the
angle and flip cells default to the string 0. -/
def geomCellNames : List String :=
  ["PinX", "PinY", "Width", "Height", "Angle", "FlipX", "FlipY", "ResizeMode"]

def ownGeometry (e : XmlElem) : Geometry :=
  let cells := collectCells geomCellNames e
  let sections := geoSections e
  { x := dGetD cells "PinX" "?"
    y := dGetD cells "PinY" "?"
    width := dGetD cells "Width" "?"
    height := dGetD cells "Height" "?"
    angle := dGetD cells "Angle" "0"
    flip_x := dGetD cells "FlipX" "0"
    flip_y := dGetD cells "FlipY" "0"
    path_data := if sections.isEmpty then none else some sections }

/-- Field-by-field merge of the master geometry into the shape's own
geometry: a positional or size field is taken from the master exactly when
the shape's own value is the unknown sentinel. -/
def mergeMaster (g : Geometry) (mg : MasterGeom) : Geometry :=
  { g with
    x := if g.x == "?" then mg.x else g.x
    y := if g.y == "?" then mg.y else g.y
    width := if g.width == "?" then mg.width else g.width
    height := if g.height == "?" then mg.height else g.height }

/-- Embedding of extract_shape_geometry from the companion module: the
shape's own geometry, augmented field by field from the resolved master
geometry when x or y is still unknown and the shape declares a non-empty
Master attribute. -/
def extract_shape_geometry (zf : Zip) (cache : Cache) (shape_elem : XmlElem) :
    Geometry × Cache :=
  let geometry := ownGeometry shape_elem
  if geometry.x == "?" || geometry.y == "?" then
    match XmlElem.get shape_elem "Master" with
    | some master_id =>
      if master_id != "" then
        let r := load_master_geometry zf master_id cache
        (mergeMaster geometry r.1, r.2.1)
      else (geometry, cache)
    | none => (geometry, cache)
  else (geometry, cache)

/-- One connection edge as the scripts build it, from a Connect element:
each endpoint id and cell is the raw attribute, absent attributes staying
None. -/
structure Conn where
  from_shape : Option String
  to_shape : Option String
  from_cell : Option String
  to_cell : Option String
deriving DecidableEq, Repr

/-- The edge read from one Connect element. -/
def connOf (c : XmlElem) : Conn :=
  { from_shape := XmlElem.get c "FromSheet"
    to_shape := XmlElem.get c "ToSheet"
    from_cell := XmlElem.get c "FromCell"
    to_cell := XmlElem.get c "ToCell" }

/-- Embedding of extract_connections: every Connect descendant of the
shape element, as edges in document order. -/
def extract_connections (e : XmlElem) : List Conn :=
  (descAll (tagIs "Connect") e).map connOf

/-- One node of the reconstructed shape tree, mirroring the dict built by
parse_shape_recursive of the runnable module: raw id, resolved name, type
tag, geometry, child nodes and accumulated connection edges. -/
inductive ShapeNode where
  | mk (id : Option String) (name : String) (ty : String) (position : MasterGeom)
      (children : List ShapeNode) (connections : List Conn) : ShapeNode

def ShapeNode.nodeId : ShapeNode → Option String
  | .mk i _ _ _ _ _ => i

def ShapeNode.nodeName : ShapeNode → String
  | .mk _ nm _ _ _ _ => nm

def ShapeNode.nodeTy : ShapeNode → String
  | .mk _ _ ty _ _ _ => ty

def ShapeNode.nodePos : ShapeNode → MasterGeom
  | .mk _ _ _ pos _ _ => pos

def ShapeNode.nodeChildren : ShapeNode → List ShapeNode
  | .mk _ _ _ _ cs _ => cs

def ShapeNode.nodeConns : ShapeNode → List Conn
  | .mk _ _ _ _ _ cn => cn

mutual
/-- Embedding of parse_shape_recursive from the runnable module.  The
name falls back to ID: followed by the raw id when the text index lacks
the id, the type to N/A, the geometry comes from get_shape_geometry
(threading the master cache), the connections field holds the shape-local
Connect edges (the source initialises it to the empty list and then
overwrites it with the extracted list when that is non-empty, which yields
the extracted list either way), and the children are the Shape children
of the first Shapes child container, recursively and unconditionally. -/
def parse_shape_recursive (zf : Zip) (texts : TextMap) (cache : Cache) :
    XmlElem → ShapeNode × Cache
  | e@(.mk _ _ _ cs _) =>
    let sid := XmlElem.get e "ID"
    let name := dGetD texts sid ("ID:" ++ pyShow sid)
    let shape_type := XmlElem.getD e "Type" "N/A"
    let gr := get_shape_geometry zf cache e
    let conns := extract_connections e
    let kr := parseShapesContainer zf texts gr.2 cs
    (.mk sid name shape_type gr.1 kr.1 conns, kr.2)
/-- Search among the direct children for the first Shapes container and
parse its shapes, modelling find applied to a plain Shapes path. -/
def parseShapesContainer (zf : Zip) (texts : TextMap) (cache : Cache) :
    List XmlElem → List ShapeNode × Cache
  | [] => ([], cache)
  | .mk t _ _ gcs _ :: cs =>
    if t == "Shapes" then parseShapeList zf texts cache gcs
    else parseShapesContainer zf texts cache cs
/-- Parse every Shape element of a container's child list in order,
threading the master cache left to right. -/
def parseShapeList (zf : Zip) (texts : TextMap) (cache : Cache) :
    List XmlElem → List ShapeNode × Cache
  | [] => ([], cache)
  | c :: cs =>
    if XmlElem.tag c == "Shape" then
      let nr := parse_shape_recursive zf texts cache c
      let lr := parseShapeList zf texts nr.2 cs
      (nr.1 :: lr.1, lr.2)
    else parseShapeList zf texts cache cs
end

/-- The fixed page-furniture name patterns excluded by the classifier. -/
def excludePatterns : List String :=
  ["ID:", "©", "VOLKSWAGEN", "Frame", "Border", "Sheet", "Title",
   "Page", "Background", "0-45", "Tel.", "Format", "Blatt", "Scale"]

/-- Embedding of is_core_component from the runnable module.  First
matching rule decides: excluded structural types are rejected, the
Dynamic Connector type is accepted, a resolved name containing a
page-furniture pattern is rejected, and otherwise a Group is accepted
exactly when its first direct Shapes container tests true (has at least
one child element) while any other type is accepted exactly when it has a
ConnectionPoint descendant or its first Text descendant tests true.  The
source also computes a geometry-size flag from the positional cells, but
that flag is dead: the returned decision never reads it, so it is omitted
here. -/
def is_core_component (texts : TextMap) (e : XmlElem) : Bool :=
  let sid := XmlElem.get e "ID"
  let name := dGetD texts sid ""
  let shape_type := XmlElem.getD e "Type" ""
  if ["Guide", "ThemeShape", "Documentation", "Annotation"].contains shape_type then
    false
  else if shape_type == "Dynamic Connector" then
    true
  else if excludePatterns.any (fun p => strContains name p) then
    false
  else
    let has_connection_points := !(descAll (tagIs "ConnectionPoint") e).isEmpty
    let has_children := truthyOpt (findChild e "Shapes")
    let has_text := truthyOpt (findDesc (tagIs "Text") e)
    if shape_type == "Group" then has_children
    else has_connection_points || has_text

/-- The page-level connection edges: the Connect children of the first
Connects descendant of the page root, in document order. -/
def pageConnects (root : XmlElem) : List Conn :=
  match findDesc (tagIs "Connects") root with
  | none => []
  | some cr => (childrenTagged cr "Connect").map connOf

/-- The set of shape ids occurring as an endpoint of some page edge,
modelling the connected_shape_ids set: only present, non-empty endpoint
strings are collected (Python truthiness of the attribute value). -/
def connectedIds (conns : List Conn) : List String :=
  conns.foldl
    (fun acc c =>
      let acc := match c.from_shape with
        | some s => if s != "" then acc ++ [s] else acc
        | none => acc
      match c.to_shape with
        | some s => if s != "" then acc ++ [s] else acc
        | none => acc)
    []

/-- Embedding of is_core_with_connections: a shape whose id occurs in the
page's connection endpoints is retained outright, any other shape falls
back to the classifier. -/
def is_core_with_connections (texts : TextMap) (cids : List String)
    (e : XmlElem) : Bool :=
  match XmlElem.get e "ID" with
  | some s => if cids.contains s then true else is_core_component texts e
  | none => is_core_component texts e

/-- The top-level shape elements of a page: the Shape children of the
first direct Shapes child of the page root. -/
def topShapeElems (root : XmlElem) : List XmlElem :=
  match findChild root "Shapes" with
  | some sr => childrenTagged sr "Shape"
  | none => []

/-- Filtered parse of the top-level shapes: only elements accepted by
is_core_with_connections are parsed (the classifier is consulted here and
only here), threading the master cache. -/
def coreFilterParse (zf : Zip) (texts : TextMap) (cids : List String) :
    Cache → List XmlElem → List ShapeNode × Cache
  | cache, [] => ([], cache)
  | cache, c :: cs =>
    if is_core_with_connections texts cids c then
      let nr := parse_shape_recursive zf texts cache c
      let lr := coreFilterParse zf texts cids nr.2 cs
      (nr.1 :: lr.1, lr.2)
    else coreFilterParse zf texts cids cache cs

mutual
/-- The raw ids of one node's subtree in the order add_shapes_to_map
visits them: the node before its children. -/
def nodeIds : ShapeNode → List (Option String)
  | .mk i _ _ _ cs _ => i :: nodeIdsL cs
/-- The raw ids of every node of a forest in visiting order. -/
def nodeIdsL : List ShapeNode → List (Option String)
  | [] => []
  | n :: ns => nodeIds n ++ nodeIdsL ns
end

mutual
/-- One node's subtree in preorder. -/
def preorderN : ShapeNode → List ShapeNode
  | .mk i nm ty pos cs cn => .mk i nm ty pos cs cn :: preorderL cs
/-- Every node of a forest in preorder. -/
def preorderL : List ShapeNode → List ShapeNode
  | [] => []
  | n :: ns => preorderN n ++ preorderL ns
end

mutual
/-- Pure rendering of the connection-attachment pass on one node, given
the ids of every node visited after it: shape_id_map binds each id to the
last node carrying it in visiting order, and every page edge is appended
to the connections list of the node its from endpoint is bound to.  The
node therefore receives the edges whose from endpoint equals its id
exactly when no later node (a descendant or a node further right) carries
the same id; edges whose from endpoint is bound to no node are dropped. -/
def attachNode (conns : List Conn) : ShapeNode → List (Option String) → ShapeNode
  | .mk i nm ty pos cs cn, later =>
    .mk i nm ty pos (attachList conns cs later)
      (if (nodeIdsL cs ++ later).contains i then cn
       else cn ++ conns.filter (fun c => c.from_shape == i))
/-- The connection-attachment pass on a forest, given the ids of every
node visited after the whole forest. -/
def attachList (conns : List Conn) : List ShapeNode → List (Option String) → List ShapeNode
  | [], _ => []
  | n :: ns, later => attachNode conns n (nodeIdsL ns ++ later) :: attachList conns ns later
end

/-- One page record of the output, mirroring the page dict. -/
structure PageData where
  page_index : Nat
  page_id : String
  page_file : String
  shapes : List ShapeNode

/-- Assembly of one page: page id from the root's ID attribute (falling
back to the 1-based page index), page edges and their endpoint set, the
classifier-filtered parse of the top-level shapes, then the attachment of
the page edges to the built trees; a page with no retained top-level shape
produces no record. -/
def analyzeOnePage (zf : Zip) (texts : TextMap) (idx : Nat) (page_file : String)
    (root : XmlElem) (cache : Cache) : Option PageData × Cache :=
  let page_id := XmlElem.getD root "ID" (toString idx)
  let connects := pageConnects root
  let cids := connectedIds connects
  let pr := coreFilterParse zf texts cids cache (topShapeElems root)
  if pr.1.isEmpty then (none, pr.2)
  else
    (some { page_index := idx, page_id := page_id, page_file := page_file,
            shapes := attachList connects pr.1 [] }, pr.2)

/-- Page loop of the main function: pages are numbered from 1 and the
master cache is threaded across pages. -/
def analyzePages (zf : Zip) (texts : TextMap) :
    Nat → Cache → List (String × XmlElem) → List PageData
  | _, _, [] => []
  | idx, cache, pg :: rest =>
    let r := analyzeOnePage zf texts idx pg.1 pg.2 cache
    match r.1 with
    | some pd => pd :: analyzePages zf texts (idx + 1) r.2 rest
    | none => analyzePages zf texts (idx + 1) r.2 rest

/-- Embedding of analyze_vsdx_structure_with_geometry of the runnable
module: the text index is built first, then every page part is assembled
in archive order; the module-level master cache starts empty for one
extraction. -/
def analyze_vsdx_structure_with_geometry (zf : Zip) : List PageData :=
  analyzePages zf (extract_shape_texts zf) 1 [] (pageFiles zf)

/-- The Shape elements of the first direct Shapes container of an
element: exactly the children that parse_shape_recursive recurses into. -/
def childShapeElems (e : XmlElem) : List XmlElem :=
  match findChild e "Shapes" with
  | some sc => childrenTagged sc "Shape"
  | none => []

/-- Every Shape element of every page part, pages in archive order and
shapes in document order: the traversal order of the text index builder. -/
def allPageShapes (zf : Zip) : List XmlElem :=
  (pageFiles zf).foldl (fun acc p => acc ++ descAll (tagIs "Shape") p.2) []

/-- Modelled from the claim under test: the classifier as claim C1 words
it, with rule 4 reading the feature checks literally (the Group case asks
for the presence of a Shapes child container, the other case for a
connection point or a Text element with non-empty concatenated text).
This definition follows the claim, not the source, and is compared with
is_core_component. -/
def claimIsCore (texts : TextMap) (e : XmlElem) : Bool :=
  let name := dGetD texts (XmlElem.get e "ID") ""
  let kind := XmlElem.getD e "Type" ""
  if ["Guide", "ThemeShape", "Documentation", "Annotation"].contains kind then false
  else if kind == "Dynamic Connector" then true
  else if excludePatterns.any (fun p => strContains name p) then false
  else if kind == "Group" then (findChild e "Shapes").isSome
  else !(descAll (tagIs "ConnectionPoint") e).isEmpty ||
    (match findDesc (tagIs "Text") e with
     | some t => itertext t != ""
     | none => false)

/-
Concrete documents used to settle the claims: small archives whose pages
exercise the divergences between the spec sentences and the scripts.
-/
/-- A Text element holding plain text and no child elements. -/
def exText : XmlElem := .mk "Text" [] (some "hello") [] none

/-- A plain shape whose only feature is the plain text above. -/
def exC1 : XmlElem := .mk "Shape" [("ID", "1"), ("Type", "Shape")] none [exText] none

/-- A text index binding shape 1 to its text. -/
def exT1 : TextMap := [(some "1", "hello")]

/-- A shape supplying only its x position and a master reference. -/
def w2cell : XmlElem := .mk "Cell" [("N", "PinX"), ("V", "5")] none [] none

def w2shape : XmlElem := .mk "Shape" [("ID", "9"), ("Master", "4")] none [w2cell] none

/-- Master part 4, supplying position 1, 2. -/
def w2master : XmlElem := .mk "Masters" [] none
  [.mk "Shape" [] none
    [.mk "Cell" [("N", "PinX"), ("V", "1")] none [] none,
     .mk "Cell" [("N", "PinY"), ("V", "2")] none [] none] none] none

def w2zf : Zip := [(masterFileName "4", w2master)]

/-- A nested shape (id 20) below a rejected top-level shape (id 10). -/
def bShape : XmlElem := .mk "Shape" [("ID", "20"), ("Type", "Shape")] none [] none

def aShapes : XmlElem := .mk "Shapes" [] none [bShape] none

def aShape : XmlElem := .mk "Shape" [("ID", "10"), ("Type", "Shape")] none [aShapes] none

def cn4 : XmlElem := .mk "Connect" [("FromSheet", "20"), ("ToSheet", "30")] none [] none

def root4 : XmlElem := .mk "PageContents" [] none
  [.mk "Shapes" [] none [aShape] none, .mk "Connects" [] none [cn4] none] none

def zf4 : Zip := [("visio/pages/page1.xml", root4)]

/-- A Guide child (id 2) below an accepted Group (id 1), no edges. -/
def gChild : XmlElem := .mk "Shape" [("ID", "2"), ("Type", "Guide")] none [] none

def gShapes : XmlElem := .mk "Shapes" [] none [gChild] none

def gShape : XmlElem :=
  .mk "Shape" [("ID", "1"), ("Type", "Group"), ("NameU", "Motor")] none [gShapes] none

def root5 : XmlElem := .mk "PageContents" [] none [.mk "Shapes" [] none [gShape] none] none

def zf5 : Zip := [("visio/pages/page1.xml", root5)]

/-- A retained shape (id 1) and an edge to the nonexistent id 99. -/
def sCP : XmlElem := .mk "ConnectionPoint" [("ID", "1")] none [] none

def sShape : XmlElem :=
  .mk "Shape" [("ID", "1"), ("Type", "Shape"), ("NameU", "Motor")] none [sCP] none

def cn6 : XmlElem := .mk "Connect" [("FromSheet", "1"), ("ToSheet", "99")] none [] none

def root6 : XmlElem := .mk "PageContents" [] none
  [.mk "Shapes" [] none [sShape] none, .mk "Connects" [] none [cn6] none] none

def zf6 : Zip := [("visio/pages/page1.xml", root6)]

/-- Master part 7 whose shape lacks PinX and PinY, so nothing is cached. -/
def mShape8 : XmlElem := .mk "Shape" [] none
  [.mk "Cell" [("N", "Width"), ("V", "3")] none [] none] none

def mRoot8 : XmlElem := .mk "Masters" [] none [mShape8] none

def zf8 : Zip := [(masterFileName "7", mRoot8)]

/-- A shape with no cells at all. -/
def e10 : XmlElem := .mk "Shape" [("ID", "3")] none [] none

/-- A Guide shape that is an edge endpoint: rejected by the classifier,
retained by the override. -/
def wEl4 : XmlElem := .mk "Shape" [("ID", "1"), ("Type", "Guide")] none [] none

def wRoot4 : XmlElem := .mk "PageContents" [] none
  [.mk "Shapes" [] none [wEl4] none,
   .mk "Connects" [] none
     [.mk "Connect" [("FromSheet", "1"), ("ToSheet", "2")] none [] none] none] none

def wZf4 : Zip := [("visio/pages/page1.xml", wRoot4)]

/-- Two pages sharing the raw id 1: the first resolves through NameU, the
second through its text, which wins. -/
def shapeA9 : XmlElem := .mk "Shape" [("ID", "1"), ("NameU", "Alpha")] none [] none

def rootA9 : XmlElem := .mk "PageContents" [] none
  [.mk "Shapes" [] none [shapeA9] none] none

def textB9 : XmlElem := .mk "Text" [] (some " Beta ") [] none

def shapeB9 : XmlElem := .mk "Shape" [("ID", "1")] none [textB9] none

def rootB9 : XmlElem := .mk "PageContents" [] none
  [.mk "Shapes" [] none [shapeB9] none] none

def zf9 : Zip :=
  [("visio/pages/page1.xml", rootA9), ("visio/pages/page2.xml", rootB9)]

/-- A single node and a single edge out of it, for the witness of the
attachment theorem. -/
def nd7 : ShapeNode := .mk (some "1") "Motor" "Shape" unknownMG [] []

def cn7 : Conn := { from_shape := some "1", to_shape := some "2",
                    from_cell := none, to_cell := none }

theorem dGet_dInsert_self {κ α : Type} [BEq κ] [LawfulBEq κ]
    (m : List (κ × α)) (k : κ) (v : α) : dGet (dInsert m k v) k = some v := by
  induction m with
  | nil => simp [dGet, dInsert, List.find?]
  | cons p m ih =>
    by_cases hp : p.1 = k
    · simp [dGet, dInsert, List.find?, hp]
    · simpa [dGet, dInsert, List.find?, hp] using ih

theorem dGet_dInsert_ne {κ α : Type} [BEq κ] [LawfulBEq κ]
    (m : List (κ × α)) (k k' : κ) (v : α) (h : k' ≠ k) :
    dGet (dInsert m k v) k' = dGet m k' := by
  induction m with
  | nil =>
    have : (k == k') = false := by simp [beq_iff_eq]; exact fun e => h e.symm
    simp [dGet, dInsert, List.find?, this]
  | cons p m ih =>
    by_cases hp : p.1 = k
    · have hk : (k == k') = false := by
        simp [beq_iff_eq]; exact fun e => h e.symm
      have hpb : (p.1 == k) = true := by simp [beq_iff_eq, hp]
      have hp' : (p.1 == k') = false := by
        simp [beq_iff_eq, hp]; exact fun e => h e.symm
      simp [dGet, dInsert, List.find?, hpb, hk, hp']
    · have hpb : (p.1 == k) = false := by simp [beq_iff_eq, hp]
      by_cases hp' : p.1 = k'
      · have hpb' : (p.1 == k') = true := by simp [beq_iff_eq, hp']
        simp [dGet, dInsert, List.find?, hpb, hpb']
      · have hpb' : (p.1 == k') = false := by simp [beq_iff_eq, hp']
        simpa [dGet, dInsert, List.find?, hpb, hpb'] using ih

theorem parse_nodeId (zf : Zip) (texts : TextMap) (cache : Cache) (e : XmlElem) :
    ((parse_shape_recursive zf texts cache e).1).nodeId = XmlElem.get e "ID" := by
  cases e
  rfl

theorem parseShapeList_map_nodeId (zf : Zip) (texts : TextMap) :
    ∀ (l : List XmlElem) (cache : Cache),
      ((parseShapeList zf texts cache l).1).map ShapeNode.nodeId
        = (l.filter (fun c => XmlElem.tag c == "Shape")).map (fun c => XmlElem.get c "ID")
  | [], _ => rfl
  | c :: cs, cache => by
    by_cases hc : XmlElem.tag c = "Shape"
    · have hb : (XmlElem.tag c == "Shape") = true := by simp [hc]
      simp only [parseShapeList, hb, if_true, List.filter_cons, List.map_cons]
      rw [parse_nodeId, parseShapeList_map_nodeId zf texts cs]
    · have hb : (XmlElem.tag c == "Shape") = false := by simp [hc]
      simp only [parseShapeList, hb, Bool.false_eq_true, if_false, List.filter_cons]
      rw [parseShapeList_map_nodeId zf texts cs]

theorem parseShapesContainer_eq (zf : Zip) (texts : TextMap) :
    ∀ (cs : List XmlElem) (cache : Cache),
      parseShapesContainer zf texts cache cs
        = parseShapeList zf texts cache
            (match cs.find? (tagIs "Shapes") with
             | some sc => sc.children
             | none => [])
  | [], _ => rfl
  | c :: cs, cache => by
    cases c with
    | mk t a x gcs tl =>
      by_cases ht : t = "Shapes"
      · subst ht
        simp [parseShapesContainer, List.find?, tagIs, XmlElem.tag, XmlElem.children]
      · have hb : (t == "Shapes") = false := by simp [ht]
        simp only [parseShapesContainer, List.find?, tagIs, XmlElem.tag, hb,
          Bool.false_eq_true, if_false]
        exact parseShapesContainer_eq zf texts cs cache

theorem parse_children_map_nodeId (zf : Zip) (texts : TextMap) (cache : Cache)
    (e : XmlElem) :
    ((parse_shape_recursive zf texts cache e).1).nodeChildren.map ShapeNode.nodeId
      = (childShapeElems e).map (fun c => XmlElem.get c "ID") := by
  cases e with
  | mk t a x cs tl =>
    show ((parseShapesContainer zf texts _ cs).1).map ShapeNode.nodeId = _
    rw [parseShapesContainer_eq, parseShapeList_map_nodeId]
    unfold childShapeElems findChild childrenTagged tagIs
    cases h : List.find? (fun e => XmlElem.tag e == "Shapes") cs <;>
      simp [XmlElem.children, h]

theorem coreFilterParse_map_nodeId (zf : Zip) (texts : TextMap) (cids : List String) :
    ∀ (l : List XmlElem) (cache : Cache),
      ((coreFilterParse zf texts cids cache l).1).map ShapeNode.nodeId
        = (l.filter (is_core_with_connections texts cids)).map (fun c => XmlElem.get c "ID")
  | [], _ => rfl
  | c :: cs, cache => by
    cases hc : is_core_with_connections texts cids c
    · simp only [coreFilterParse, hc, Bool.false_eq_true, if_false, List.filter_cons]
      rw [coreFilterParse_map_nodeId zf texts cids cs]
    · simp only [coreFilterParse, hc, if_true, List.filter_cons, List.map_cons]
      rw [parse_nodeId, coreFilterParse_map_nodeId zf texts cids cs]

theorem attachNode_nodeId (conns : List Conn) (n : ShapeNode)
    (later : List (Option String)) :
    (attachNode conns n later).nodeId = n.nodeId := by
  cases n
  rfl

theorem attachList_map_nodeId (conns : List Conn) :
    ∀ (ns : List ShapeNode) (later : List (Option String)),
      (attachList conns ns later).map ShapeNode.nodeId = ns.map ShapeNode.nodeId
  | [], _ => rfl
  | n :: ns, later => by
    simp only [attachList, List.map_cons]
    rw [attachNode_nodeId, attachList_map_nodeId conns ns later]

theorem containsMem {α : Type} [BEq α] [LawfulBEq α] {l : List α} {a : α} :
    l.contains a = true ↔ a ∈ l := by
  simp

theorem containsNotMem {α : Type} [BEq α] [LawfulBEq α] {l : List α} {a : α} :
    l.contains a = false ↔ a ∉ l := by
  simp

mutual
/-- Edges whose from endpoint is bound in the surrounding id set are the
only ones a node's attachment can consume: filtering the edge list down to
those bound endpoints does not change the attachment of a node all of
whose subtree ids lie in the set. -/
theorem attachNode_filter (S : List (Option String)) (conns : List Conn) :
    ∀ (n : ShapeNode) (later : List (Option String)),
      (∀ i ∈ nodeIds n, S.contains i = true) →
      attachNode conns n later
        = attachNode (conns.filter (fun c => S.contains c.from_shape)) n later
  | .mk i nm ty pos cs cn, later, h => by
    have hi : S.contains i = true := h i (by simp [nodeIds])
    have hcs : ∀ j ∈ nodeIdsL cs, S.contains j = true := fun j hj =>
      h j (by simp [nodeIds]; exact Or.inr hj)
    have hiS : i ∈ S := by simpa using hi
    have hfilter : conns.filter (fun c => c.from_shape == i)
        = (conns.filter (fun c => S.contains c.from_shape)).filter
            (fun c => c.from_shape == i) := by
      rw [List.filter_filter]
      refine List.filter_congr ?_
      intro c _
      cases hq : c.from_shape == i
      · simp [hq]
      · have hce : c.from_shape = i := eq_of_beq hq
        simp [hq, hce, hiS]
    simp only [attachNode]
    rw [attachList_filter S conns cs later hcs, hfilter]
/-- List version of attachNode_filter. -/
theorem attachList_filter (S : List (Option String)) (conns : List Conn) :
    ∀ (ns : List ShapeNode) (later : List (Option String)),
      (∀ i ∈ nodeIdsL ns, S.contains i = true) →
      attachList conns ns later
        = attachList (conns.filter (fun c => S.contains c.from_shape)) ns later
  | [], _, _ => rfl
  | n :: ns, later, h => by
    simp only [attachList]
    rw [attachNode_filter S conns n _ (fun i hi => h i (by
          simp [nodeIdsL]; exact Or.inl hi)),
        attachList_filter S conns ns later (fun i hi => h i (by
          simp [nodeIdsL]; exact Or.inr hi))]
end

/-- A resolved edge reaches the designated node: when the from endpoint of
an edge occurs among a forest's ids and not among the ids visited later,
the attachment pass produces a node of that forest carrying the edge in
its connections. -/
theorem attach_mem_aux (conns : List Conn) (c : Conn) (hc : c ∈ conns) :
    ∀ (ns : List ShapeNode) (later : List (Option String)),
      c.from_shape ∈ nodeIdsL ns →
      c.from_shape ∉ later →
      ∃ n, n ∈ preorderL (attachList conns ns later) ∧
        n.nodeId = c.from_shape ∧ c ∈ n.nodeConns
  | .mk i nm ty pos cs cn :: ns, later, hmem, hlater => by
    by_cases hns : c.from_shape ∈ nodeIdsL ns
    · obtain ⟨n, hn, hid, hcn⟩ := attach_mem_aux conns c hc ns later hns hlater
      exact ⟨n, by
        simp only [attachList, preorderL, List.mem_append]
        exact Or.inr hn, hid, hcn⟩
    · by_cases hcs : c.from_shape ∈ nodeIdsL cs
      · have hlater' : c.from_shape ∉ nodeIdsL ns ++ later := by
          simp [List.mem_append, hns, hlater]
        obtain ⟨n, hn, hid, hcn⟩ :=
          attach_mem_aux conns c hc cs (nodeIdsL ns ++ later) hcs hlater'
        refine ⟨n, ?_, hid, hcn⟩
        simp only [attachList, attachNode, preorderL, preorderN, List.mem_cons,
          List.mem_append]
        exact Or.inl (Or.inr hn)
      · have hif : c.from_shape = i := by
          simp only [nodeIdsL, nodeIds, List.mem_append, List.mem_cons] at hmem
          rcases hmem with (h1 | h1) | h1
          · exact h1
          · exact absurd h1 hcs
          · exact absurd h1 hns
        have hcond : ((nodeIdsL cs ++ (nodeIdsL ns ++ later)).contains i) = false := by
          rw [containsNotMem, ← hif]
          simp [List.mem_append, hcs, hns, hlater]
        refine ⟨.mk i nm ty pos (attachList conns cs (nodeIdsL ns ++ later))
          (cn ++ conns.filter (fun c => c.from_shape == i)), ?_, ?_, ?_⟩
        · simp only [attachList, attachNode, preorderL, preorderN, List.mem_cons,
            List.mem_append, hcond, Bool.false_eq_true, if_false]
          exact Or.inl (Or.inl trivial)
        · simp [ShapeNode.nodeId, hif]
        · simp only [ShapeNode.nodeConns, List.mem_append]
          refine Or.inr (List.mem_filter.mpr ⟨hc, ?_⟩)
          simp [hif]

theorem dHas_eq_isSome {κ α : Type} [BEq κ] (m : List (κ × α)) (k : κ) :
    dHas m k = (dGet m k).isSome := by
  induction m with
  | nil => rfl
  | cons p m ih =>
    cases hp : p.1 == k
    · simpa [dHas, dGet, List.any_cons, List.find?, hp] using ih
    · simp [dHas, dGet, List.any_cons, List.find?, hp]

theorem dHas_dInsert_self {κ α : Type} [BEq κ] [LawfulBEq κ]
    (m : List (κ × α)) (k : κ) (v : α) : dHas (dInsert m k v) k = true := by
  rw [dHas_eq_isSome, dGet_dInsert_self]
  rfl

theorem foldl_dInsert_lookup {κ α β : Type} [BEq κ] [LawfulBEq κ]
    (key : β → κ) (val : β → α) :
    ∀ (l : List β) (m0 : List (κ × α)) (k : κ),
      dGet (l.foldl (fun m s => dInsert m (key s) (val s)) m0) k
        = (match (l.filter (fun s => key s == k)).getLast? with
           | some s => some (val s)
           | none => dGet m0 k)
  | [], m0, k => rfl
  | s :: l, m0, k => by
    rw [List.foldl_cons, foldl_dInsert_lookup key val l (dInsert m0 (key s) (val s)) k]
    by_cases hks : key s = k
    · have hb : (key s == k) = true := by simp [hks]
      simp only [List.filter_cons, hb, if_true]
      cases hfl : l.filter (fun s => key s == k) with
      | nil =>
        subst hks
        simp [List.getLast?, dGet_dInsert_self]
      | cons b t =>
        rw [List.getLast?_cons_cons]
        cases hgl : (b :: t).getLast? with
        | some u => rfl
        | none => simp at hgl
    · have hb : (key s == k) = false := by simp [hks]
      simp only [List.filter_cons, hb, Bool.false_eq_true, if_false]
      cases hfl : (l.filter (fun s => key s == k)).getLast? with
      | some u => rfl
      | none =>
        simp only
        exact dGet_dInsert_ne m0 (key s) k (val s) (fun e => hks e.symm)

theorem foldl_pages_eq (g : TextMap → XmlElem → TextMap) :
    ∀ (pages : List (String × XmlElem)) (acc : List XmlElem) (m0 : TextMap),
      pages.foldl (fun m page => (descAll (tagIs "Shape") page.2).foldl g m)
        ((acc.foldl g m0))
        = (pages.foldl (fun a p => a ++ descAll (tagIs "Shape") p.2) acc).foldl g m0
  | [], _, _ => rfl
  | p :: pages, acc, m0 => by
    rw [List.foldl_cons, List.foldl_cons, ← List.foldl_append,
      foldl_pages_eq g pages (acc ++ descAll (tagIs "Shape") p.2) m0]

theorem extract_shape_texts_eq (zf : Zip) :
    extract_shape_texts zf
      = (allPageShapes zf).foldl
          (fun m s => dInsert m (XmlElem.get s "ID") (labelOfShape s)) [] := by
  unfold extract_shape_texts allPageShapes
  exact foldl_pages_eq _ (pageFiles zf) [] []

/-- Truthiness of an optional element, characterised: the find result
tests true exactly when it found an element having at least one child. -/
theorem truthyOpt_iff (o : Option XmlElem) :
    truthyOpt o = true ↔ ∃ x, o = some x ∧ XmlElem.children x ≠ [] := by
  cases o with
  | none => simp [truthyOpt]
  | some x => simp [truthyOpt, truthy, List.isEmpty_iff]

/-- Page-loop membership: a top-level shape element of some page whose id
occurs among that page's connection endpoints yields a page record whose
top-level nodes include one carrying that id, wherever the page sits in
the page list and whatever the cache state is. -/
theorem analyzePages_mem (zf : Zip) (texts : TextMap) (s : String) (c : XmlElem) :
    ∀ (pages : List (String × XmlElem)) (idx : Nat) (cache : Cache)
      (fname : String) (root : XmlElem),
      (fname, root) ∈ pages →
      c ∈ topShapeElems root →
      XmlElem.get c "ID" = some s →
      (connectedIds (pageConnects root)).contains s = true →
      ∃ pd ∈ analyzePages zf texts idx cache pages,
        ∃ n ∈ pd.shapes, n.nodeId = some s
  | [], _, _, _, _, hp, _, _, _ => absurd hp (List.not_mem_nil _)
  | (f2, r2) :: pages, idx, cache, fname, root, hp, hc, hid, hcid => by
    rcases List.mem_cons.mp hp with heq | htail
    · have hr : root = r2 := congrArg Prod.snd heq
      subst hr
      have hacc : is_core_with_connections texts
          (connectedIds (pageConnects root)) c = true := by
        unfold is_core_with_connections
        rw [hid]
        exact if_pos hcid
      have hmm : some s ∈ ((coreFilterParse zf texts
          (connectedIds (pageConnects root)) cache
          (topShapeElems root)).1).map ShapeNode.nodeId := by
        rw [coreFilterParse_map_nodeId]
        exact List.mem_map.mpr ⟨c, List.mem_filter.mpr ⟨hc, hacc⟩, hid⟩
      have hne : ((coreFilterParse zf texts (connectedIds (pageConnects root))
          cache (topShapeElems root)).1).isEmpty = false := by
        cases hres : (coreFilterParse zf texts (connectedIds (pageConnects root))
            cache (topShapeElems root)).1 with
        | nil =>
          rw [hres, List.map_nil] at hmm
          cases hmm
        | cons a l => rfl
      have hatt : some s ∈ ((attachList (pageConnects root)
          ((coreFilterParse zf texts (connectedIds (pageConnects root)) cache
            (topShapeElems root)).1) [])).map ShapeNode.nodeId := by
        rw [attachList_map_nodeId]
        exact hmm
      obtain ⟨n, hn, hnid⟩ := List.mem_map.mp hatt
      refine ⟨{ page_index := idx,
                page_id := XmlElem.getD root "ID" (toString idx),
                page_file := f2,
                shapes := attachList (pageConnects root)
                  ((coreFilterParse zf texts (connectedIds (pageConnects root))
                    cache (topShapeElems root)).1) [] }, ?_, n, hn, hnid⟩
      simp only [analyzePages, analyzeOnePage, hne, Bool.false_eq_true, if_false]
      exact List.mem_cons_self _ _
    · obtain ⟨pd, hpd, hnode⟩ := analyzePages_mem zf texts s c pages (idx + 1)
        (analyzeOnePage zf texts idx f2 r2 cache).2 fname root htail hc hid hcid
      simp only [analyzePages]
      cases (analyzeOnePage zf texts idx f2 r2 cache).1 with
      | some pd' => exact ⟨pd, List.mem_cons_of_mem pd' hpd, hnode⟩
      | none => exact ⟨pd, hpd, hnode⟩

/-- Claim C1, counterexample: a plain shape whose Text element holds
non-empty text but no child elements is accepted by the classifier as the
claim words it (rule 4: non-empty text element) yet rejected by the code,
whose truthiness test on the found Text element checks for child elements
rather than text. -/
theorem C1_counterexample :
    claimIsCore exT1 exC1 = true ∧ is_core_component exT1 exC1 = false := by
  decide

/-- Claim C1, amended: the classifier decides by the claimed rule cascade
except that rule 4 uses ElementTree truthiness: a Group is accepted when
its first direct Shapes container has at least one child element, and any
other kind is accepted when it has a ConnectionPoint descendant or its
first Text descendant has at least one child element (plain text does not
count).  No geometry cell takes part in the decision. -/
theorem C1_amended (texts : TextMap) (e : XmlElem) :
    is_core_component texts e = true ↔
      (XmlElem.getD e "Type" ""
          ∉ (["Guide", "ThemeShape", "Documentation", "Annotation"] : List String) ∧
       (XmlElem.getD e "Type" "" = "Dynamic Connector" ∨
        ((∀ p ∈ excludePatterns,
            strContains (dGetD texts (XmlElem.get e "ID") "") p = false) ∧
         ((XmlElem.getD e "Type" "" = "Group" ∧
             ∃ sc, findChild e "Shapes" = some sc ∧ XmlElem.children sc ≠ []) ∨
          (XmlElem.getD e "Type" "" ≠ "Group" ∧
             (descAll (tagIs "ConnectionPoint") e ≠ [] ∨
              ∃ t, findDesc (tagIs "Text") e = some t ∧
                XmlElem.children t ≠ [])))))) := by
  unfold is_core_component
  by_cases h1 : (["Guide", "ThemeShape", "Documentation", "Annotation"].contains
      (XmlElem.getD e "Type" "")) = true
  · have hm := containsMem.mp h1
    simp [h1, hm]
  · have hm : XmlElem.getD e "Type" ""
        ∉ (["Guide", "ThemeShape", "Documentation", "Annotation"] : List String) :=
      containsNotMem.mp (Bool.eq_false_iff.mpr h1)
    rw [if_neg h1]
    by_cases h2 : (XmlElem.getD e "Type" "" == "Dynamic Connector") = true
    · have he : XmlElem.getD e "Type" "" = "Dynamic Connector" := eq_of_beq h2
      simp [h2, hm, he]
    · have hne2 : XmlElem.getD e "Type" "" ≠ "Dynamic Connector" := by
        intro he
        exact h2 (by simp [he])
      rw [if_neg h2]
      by_cases h3 : (excludePatterns.any
          (fun p => strContains (dGetD texts (XmlElem.get e "ID") "") p)) = true
      · obtain ⟨p, hp, hsp⟩ := List.any_eq_true.mp h3
        simp only [h3, if_true]
        constructor
        · intro hf
          cases hf
        · rintro ⟨-, hdc | ⟨hall, -⟩⟩
          · exact absurd hdc hne2
          · rw [hall p hp] at hsp
            cases hsp
      · have hall : ∀ p ∈ excludePatterns,
            strContains (dGetD texts (XmlElem.get e "ID") "") p = false := by
          intro p hp
          cases hsp : strContains (dGetD texts (XmlElem.get e "ID") "") p
          · rfl
          · exact absurd (List.any_eq_true.mpr ⟨p, hp, hsp⟩) h3
        rw [if_neg h3]
        by_cases h4 : (XmlElem.getD e "Type" "" == "Group") = true
        · have hg : XmlElem.getD e "Type" "" = "Group" := eq_of_beq h4
          rw [if_pos h4, truthyOpt_iff]
          constructor
          · intro hx
            exact ⟨hm, Or.inr ⟨hall, Or.inl ⟨hg, hx⟩⟩⟩
          · rintro ⟨-, hdc | ⟨-, ⟨-, hx⟩ | ⟨hng, -⟩⟩⟩
            · exact absurd hdc hne2
            · exact hx
            · exact absurd hg hng
        · have hng : XmlElem.getD e "Type" "" ≠ "Group" := by
            intro hg
            exact h4 (by simp [hg])
          rw [if_neg h4]
          constructor
          · intro hx
            rw [Bool.or_eq_true] at hx
            rcases hx with hcp | ht
            · refine ⟨hm, Or.inr ⟨hall, Or.inr ⟨hng, Or.inl ?_⟩⟩⟩
              intro hnil
              rw [hnil] at hcp
              cases hcp
            · exact ⟨hm, Or.inr ⟨hall, Or.inr
                ⟨hng, Or.inr ((truthyOpt_iff _).mp ht)⟩⟩⟩
          · rintro ⟨-, hdc | ⟨-, ⟨hg, -⟩ | ⟨-, hcp | ht⟩⟩⟩
            · exact absurd hdc hne2
            · exact absurd hg hng
            · rw [Bool.or_eq_true]
              refine Or.inl ?_
              cases hl : descAll (tagIs "ConnectionPoint") e with
              | nil => exact absurd hl hcp
              | cons a l => rfl
            · rw [Bool.or_eq_true]
              exact Or.inr ((truthyOpt_iff _).mpr ht)

/-- Claim C4, counterexample: shape 20 is the endpoint of the page's only
edge and occurs in the page, but it is nested below the rejected
top-level shape 10, so the output holds no page at all and id 20 is not
retained as a node anywhere. -/
theorem C4_counterexample :
    pageConnects root4 = [⟨some "20", some "30", none, none⟩] ∧
    (descAll (tagIs "Shape") root4).map (fun e => XmlElem.get e "ID")
      = [some "10", some "20"] ∧
    (analyze_vsdx_structure_with_geometry zf4).length = 0 := by
  decide

/-- Claim C4, amended: the connection-endpoint override applies to the
top-level shapes only — every direct Shape child of a page's Shapes
container whose id occurs among that page's edge endpoints is retained as
a top-level node of an emitted page record, whatever the classifier says;
a nested shape is retained only through its top-level ancestor. -/
theorem C4_amended (zf : Zip) (fname : String) (root : XmlElem) (s : String)
    (c : XmlElem) (hp : (fname, root) ∈ pageFiles zf) (hc : c ∈ topShapeElems root)
    (hid : XmlElem.get c "ID" = some s)
    (hcid : (connectedIds (pageConnects root)).contains s = true) :
    ∃ pd ∈ analyze_vsdx_structure_with_geometry zf,
      ∃ n ∈ pd.shapes, n.nodeId = some s :=
  analyzePages_mem zf (extract_shape_texts zf) s c (pageFiles zf) 1 [] fname root
    hp hc hid hcid

/-- Witness for C4_amended: a Guide shape the classifier rejects is still
retained because it is an edge endpoint. -/
theorem C4_amended_witness :
    is_core_component (extract_shape_texts wZf4) wEl4 = false ∧
    ∃ pd ∈ analyze_vsdx_structure_with_geometry wZf4,
      ∃ n ∈ pd.shapes, n.nodeId = some "1" := by
  refine ⟨by decide, ?_⟩
  exact C4_amended wZf4 "visio/pages/page1.xml" wRoot4 "1" wEl4
    (List.mem_singleton.mpr rfl)
    ((show topShapeElems wRoot4 = [wEl4] from rfl) ▸ List.mem_singleton.mpr rfl)
    (by decide) (by decide)

/-- Claim C5, counterexample: the output of the analysis of a page whose
accepted Group (id 1) contains a Guide child (id 2) keeps the Guide node,
although the classifier rejects it and the page has no edges at all, so
no override applies: descendants are never filtered. -/
theorem C5_counterexample :
    (analyze_vsdx_structure_with_geometry zf5).map (fun pd =>
        (preorderL pd.shapes).map (fun n => (n.nodeId, n.nodeTy)))
      = [[(some "1", "Group"), (some "2", "Guide")]] ∧
    is_core_component (extract_shape_texts zf5) gChild = false ∧
    pageConnects root5 = [] ∧
    XmlElem.get gChild "ID" = some "2" := by
  decide

/-- Claim C5, amended: the classifier (with the endpoint override) is
consulted only for the top-level shapes of a page; once a top-level shape
is retained, the tree builder keeps every Shape child of each node's
Shapes container unconditionally, at all depths. -/
theorem C5_amended :
    (∀ (zf : Zip) (texts : TextMap) (cids : List String) (cache : Cache)
        (root : XmlElem),
      ((coreFilterParse zf texts cids cache (topShapeElems root)).1).map
          ShapeNode.nodeId
        = ((topShapeElems root).filter (is_core_with_connections texts cids)).map
            (fun c => XmlElem.get c "ID")) ∧
    (∀ (zf : Zip) (texts : TextMap) (cache : Cache) (e : XmlElem),
      ((parse_shape_recursive zf texts cache e).1).nodeChildren.map ShapeNode.nodeId
        = (childShapeElems e).map (fun c => XmlElem.get c "ID")) :=
  ⟨fun zf texts cids cache root => coreFilterParse_map_nodeId zf texts cids _ cache,
   fun zf texts cache e => parse_children_map_nodeId zf texts cache e⟩

/-- Claim C6, counterexample: the page's only edge points from the
retained shape 1 to the nonexistent id 99, yet the edge is appended to
node 1's connections — an edge is dropped only when its from endpoint is
unresolved, not when its to endpoint is. -/
theorem C6_counterexample :
    (analyze_vsdx_structure_with_geometry zf6).map (fun pd =>
        (preorderL pd.shapes).map (fun n => (n.nodeId, n.nodeConns)))
      = [[(some "1", [⟨some "1", some "99", none, none⟩])]] ∧
    pageConnects root6 = [⟨some "1", some "99", none, none⟩] ∧
    (descAll (tagIs "Shape") root6).map (fun e => XmlElem.get e "ID")
      = [some "1"] := by
  decide

/-- Claim C6, amended: only the from endpoint is checked during edge
attachment — edges whose from id is bound to no node of the page tree
have no effect on the output (they are dropped silently, and attachment
never fails), while an edge whose from id resolves is appended even when
its to id is dangling. -/
theorem C6_amended (conns : List Conn) (ns : List ShapeNode) :
    attachList conns ns []
      = attachList (conns.filter
          (fun c => (nodeIdsL ns).contains c.from_shape)) ns [] :=
  attachList_filter (nodeIdsL ns) conns ns []
    (fun i hi => containsMem.mpr hi)

/-- Claim C7: every node built by the tree builder carries a connections
sequence (initialised with the shape-local Connect edges), and during page
assembly every edge whose from endpoint is bound in the page index is
appended to the connections of a node carrying that id; the append is
total. -/
theorem C7_page_assembly :
    (∀ (zf : Zip) (texts : TextMap) (cache : Cache) (e : XmlElem),
      ((parse_shape_recursive zf texts cache e).1).nodeConns
        = extract_connections e) ∧
    (∀ (conns : List Conn) (ns : List ShapeNode) (c : Conn),
      c ∈ conns → c.from_shape ∈ nodeIdsL ns →
      ∃ n ∈ preorderL (attachList conns ns []),
        n.nodeId = c.from_shape ∧ c ∈ n.nodeConns) := by
  constructor
  · intro zf texts cache e
    cases e
    rfl
  · intro conns ns c hc hmem
    obtain ⟨n, hn, hid, hcn⟩ :=
      attach_mem_aux conns c hc ns [] hmem (List.not_mem_nil _)
    exact ⟨n, hn, hid, hcn⟩

/-- Witness for C7_page_assembly: a single retained node and one edge out
of it, which lands in that node's connections. -/
theorem C7_page_assembly_witness :
    ∃ n ∈ preorderL (attachList [cn7] [nd7] []),
      n.nodeId = cn7.from_shape ∧ cn7 ∈ n.nodeConns :=
  C7_page_assembly.2 [cn7] [nd7] cn7 (by decide)
    (by decide)

/-- Claim C8, counterexample: master part 7 exists but its shape lacks
PinX and PinY, so nothing is cached and a second resolution parses the
part again (both calls report one parse), although it does return the
same sentinel geometry. -/
theorem C8_counterexample :
    (load_master_geometry zf8 "7" []).2.2 = 1 ∧
    (load_master_geometry zf8 "7" (load_master_geometry zf8 "7" []).2.1).2.2 = 1 ∧
    (load_master_geometry zf8 "7" (load_master_geometry zf8 "7" []).2.1).1
      = (load_master_geometry zf8 "7" []).1 := by
  decide

/-- Claim C2, counterexample: get_shape_geometry of the runnable module
does not merge field by field — a shape supplying x equal to 5 with no y
and master 4 holding position 1, 2 comes back with the whole master
geometry, overwriting the x the shape itself supplied. -/
theorem C2_counterexample :
    dGetD (collectCells ["PinX", "PinY", "Width", "Height"] w2shape) "PinX" "?"
      = "5" ∧
    (get_shape_geometry w2zf [] w2shape).1
      = { x := "1", y := "2", width := "?", height := "?" } := by
  decide

/-- Claim C10, counterexample: a shape with no cells at all yields angle
and flip fields defaulted to the string 0, not the unknown sentinel — the
zero-default ban holds only for position and size. -/
theorem C10_counterexample :
    (extract_shape_geometry [] [] e10).1.angle = "0" ∧
    (extract_shape_geometry [] [] e10).1.flip_x = "0" ∧
    (extract_shape_geometry [] [] e10).1.flip_y = "0" ∧
    (descAll (tagIs "Cell") e10).length = 0 := by
  decide

/-- Claim C2, amended: the field-by-field master fallback holds of
extract_shape_geometry (the richer extractor): when the shape's own cells
leave x or y unknown and the shape declares a non-empty master id, each of
x, y, width, height is taken from the resolved master geometry exactly
when the shape's own value is the unknown sentinel, a field the shape
supplied is never overwritten, and angle, flips and path data are never
touched by the master; get_shape_geometry of the runnable module instead
returns the whole master geometry (see the counterexample). -/
theorem C2_amended (zf : Zip) (cache : Cache) (e : XmlElem) (mid : String)
    (hm : XmlElem.get e "Master" = some mid) (hne : mid ≠ "")
    (hxy : (ownGeometry e).x = "?" ∨ (ownGeometry e).y = "?") :
    (extract_shape_geometry zf cache e).1.x
      = (if (ownGeometry e).x = "?" then (load_master_geometry zf mid cache).1.x
         else (ownGeometry e).x) ∧
    (extract_shape_geometry zf cache e).1.y
      = (if (ownGeometry e).y = "?" then (load_master_geometry zf mid cache).1.y
         else (ownGeometry e).y) ∧
    (extract_shape_geometry zf cache e).1.width
      = (if (ownGeometry e).width = "?"
         then (load_master_geometry zf mid cache).1.width
         else (ownGeometry e).width) ∧
    (extract_shape_geometry zf cache e).1.height
      = (if (ownGeometry e).height = "?"
         then (load_master_geometry zf mid cache).1.height
         else (ownGeometry e).height) ∧
    (extract_shape_geometry zf cache e).1.angle = (ownGeometry e).angle ∧
    (extract_shape_geometry zf cache e).1.flip_x = (ownGeometry e).flip_x ∧
    (extract_shape_geometry zf cache e).1.flip_y = (ownGeometry e).flip_y ∧
    (extract_shape_geometry zf cache e).1.path_data = (ownGeometry e).path_data := by
  have hb : ((ownGeometry e).x == "?" || (ownGeometry e).y == "?") = true := by
    rcases hxy with h | h <;> simp [h]
  have hmidb : (mid != "") = true := by simp [hne]
  have hres : extract_shape_geometry zf cache e
      = (mergeMaster (ownGeometry e) (load_master_geometry zf mid cache).1,
         (load_master_geometry zf mid cache).2.1) := by
    unfold extract_shape_geometry
    rw [hm]
    simp [hb, hmidb]
  rw [hres]
  refine ⟨?_, ?_, ?_, ?_, rfl, rfl, rfl, rfl⟩
  · by_cases h : (ownGeometry e).x = "?" <;> simp [mergeMaster, h]
  · by_cases h : (ownGeometry e).y = "?" <;> simp [mergeMaster, h]
  · by_cases h : (ownGeometry e).width = "?" <;> simp [mergeMaster, h]
  · by_cases h : (ownGeometry e).height = "?" <;> simp [mergeMaster, h]

/-- Witness for C2_amended: the claim's own example — shape x 5 with y
unknown and master position 1, 2 resolves to x 5, y 2. -/
theorem C2_amended_witness :
    XmlElem.get w2shape "Master" = some "4" ∧
    (ownGeometry w2shape).x = "5" ∧ (ownGeometry w2shape).y = "?" ∧
    (extract_shape_geometry w2zf [] w2shape).1.x = "5" ∧
    (extract_shape_geometry w2zf [] w2shape).1.y = "2" := by
  have h := C2_amended w2zf [] w2shape "4" (by decide) (by decide)
    (Or.inr (by decide))
  refine ⟨by decide, by decide, by decide, ?_, ?_⟩
  · rw [h.1]
    decide
  · rw [h.2.1]
    decide

/-- Claim C8, amended: resolving the same master id a second time always
returns the same geometry, but the master part is reopened and reparsed on
the second call exactly when the part exists and the first resolution left
the id uncached (its first shape lacked PinX or PinY, or it had no shape);
when the first call cached a geometry, or the part is absent, the second
call performs no parse. -/
theorem C8_amended (zf : Zip) (mid : String) (cache : Cache) :
    (load_master_geometry zf mid (load_master_geometry zf mid cache).2.1).1
      = (load_master_geometry zf mid cache).1 ∧
    (load_master_geometry zf mid (load_master_geometry zf mid cache).2.1).2.2
      = (if zipHas zf (masterFileName mid)
            && !(dHas (load_master_geometry zf mid cache).2.1 mid)
         then 1 else 0) := by
  have hz : zipHas zf (masterFileName mid)
      = (zipGet zf (masterFileName mid)).isSome :=
    dHas_eq_isSome zf (masterFileName mid)
  cases h1 : zipGet zf (masterFileName mid) with
  | none =>
    rw [h1] at hz
    have e1 : load_master_geometry zf mid cache = (unknownMG, cache, 0) := by
      unfold load_master_geometry
      simp only [h1]
    simp only [e1]
    simp [hz]
  | some root =>
    rw [h1] at hz
    cases h2 : dGet cache mid with
    | some g =>
      have hh : dHas cache mid = true := by
        rw [dHas_eq_isSome, h2]
        rfl
      have e1 : load_master_geometry zf mid cache = (g, cache, 0) := by
        unfold load_master_geometry
        simp only [h1, h2]
      simp only [e1]
      simp [hz, hh, e1]
    | none =>
      have hh : dHas cache mid = false := by
        rw [dHas_eq_isSome, h2]
        rfl
      cases h3 : findDesc (tagIs "Shape") root with
      | none =>
        have e1 : load_master_geometry zf mid cache = (unknownMG, cache, 1) := by
          unfold load_master_geometry
          simp only [h1, h2, h3]
        simp only [e1]
        simp [hz, hh, e1]
      | some se =>
        by_cases h4 : (dHas (collectCells ["PinX", "PinY", "Width", "Height"] se)
              "PinX"
            && dHas (collectCells ["PinX", "PinY", "Width", "Height"] se) "PinY")
            = true
        · have e1 : load_master_geometry zf mid cache
              = ({ x := dGetD (collectCells ["PinX", "PinY", "Width", "Height"] se)
                       "PinX" "?"
                   y := dGetD (collectCells ["PinX", "PinY", "Width", "Height"] se)
                       "PinY" "?"
                   width := dGetD (collectCells ["PinX", "PinY", "Width", "Height"] se)
                       "Width" "?"
                   height := dGetD (collectCells ["PinX", "PinY", "Width", "Height"] se)
                       "Height" "?" },
                 dInsert cache mid
                   { x := dGetD (collectCells ["PinX", "PinY", "Width", "Height"] se)
                       "PinX" "?"
                     y := dGetD (collectCells ["PinX", "PinY", "Width", "Height"] se)
                       "PinY" "?"
                     width := dGetD (collectCells ["PinX", "PinY", "Width", "Height"] se)
                       "Width" "?"
                     height := dGetD (collectCells ["PinX", "PinY", "Width", "Height"] se)
                       "Height" "?" }, 1) := by
            unfold load_master_geometry
            simp only [h1, h2, h3]
            rw [if_pos h4]
          have e2 : load_master_geometry zf mid
              (load_master_geometry zf mid cache).2.1
              = ((load_master_geometry zf mid cache).1,
                 (load_master_geometry zf mid cache).2.1, 0) := by
            rw [e1]
            unfold load_master_geometry
            simp only [h1]
            rw [dGet_dInsert_self]
          rw [e2]
          have hcached : dHas (load_master_geometry zf mid cache).2.1 mid = true := by
            rw [e1]
            exact dHas_dInsert_self cache mid _
          simp [hcached]
        · have e1 : load_master_geometry zf mid cache = (unknownMG, cache, 1) := by
            unfold load_master_geometry
            simp only [h1, h2, h3]
            rw [if_neg h4]
          simp only [e1]
          simp [hz, hh, e1]

theorem memOfGetLast {α : Type} : ∀ (l : List α) (a : α), l.getLast? = some a → a ∈ l
  | [], _, h => by cases h
  | [b], a, h => by
    have hb : b = a := by simpa [List.getLast?] using h
    simp [hb]
  | b :: c :: t, a, h => by
    rw [List.getLast?_cons_cons] at h
    exact List.mem_cons_of_mem b (memOfGetLast (c :: t) a h)

/-- Claim C9: the text index binds a shape id to the label of the last
traversal-order occurrence of that id (pages in archive order, shapes in
document order — a later page silently overwrites an earlier one), and the
label is the stripped concatenated inner text of the first Text descendant
when non-empty, else the NameU attribute, else ID: followed by the id. -/
theorem C9_text_index (zf : Zip) (sid : String) (s : XmlElem)
    (h : ((allPageShapes zf).filter
        (fun e => XmlElem.get e "ID" == some sid)).getLast? = some s) :
    dGet (extract_shape_texts zf) (some sid)
      = some (if (match findDesc (tagIs "Text") s with
                  | some t => pyStrip (itertext t)
                  | none => "") ≠ ""
              then (match findDesc (tagIs "Text") s with
                    | some t => pyStrip (itertext t)
                    | none => "")
              else (match XmlElem.get s "NameU" with
                    | some nu => nu
                    | none => "ID:" ++ sid)) := by
  have hs : s ∈ (allPageShapes zf).filter
      (fun e => XmlElem.get e "ID" == some sid) := memOfGetLast _ _ h
  have hsid : XmlElem.get s "ID" = some sid :=
    eq_of_beq (List.mem_filter.mp hs).2
  rw [extract_shape_texts_eq,
    foldl_dInsert_lookup (fun e => XmlElem.get e "ID") labelOfShape
      (allPageShapes zf) [] (some sid), h]
  unfold labelOfShape
  simp only []
  rw [hsid]
  cases hT : findDesc (tagIs "Text") s with
  | none =>
    simp only [pyShow, XmlElem.getD]
    cases hN : XmlElem.get s "NameU" with
    | none => simp
    | some nu => simp
  | some t =>
    simp only [pyShow, XmlElem.getD]
    by_cases ht : pyStrip (itertext t) = ""
    · cases hN : XmlElem.get s "NameU" with
      | none => simp [ht]
      | some nu => simp [ht]
    · have htb : (pyStrip (itertext t) != "") = true := by simp [ht]
      simp [htb, ht]

/-- Witness for C9_text_index: two pages both holding shape id 1; the
second page's text label Beta overwrites the first page's NameU label. -/
theorem C9_text_index_witness :
    dGet (extract_shape_texts zf9) (some "1") = some "Beta" := by
  have h9 := C9_text_index zf9 "1" shapeB9 rfl
  rw [h9]
  decide

/-- Claim C10, amended: position and size fields follow the sentinel
discipline — each of x, y, width, height is the shape's own cell value
(defaulting to the unknown sentinel) or, only when the own value is
unknown, the master's value — but angle, flip_x and flip_y are the own
cell values defaulting to the string 0 when the document omits them, never
the unknown sentinel, and the master never touches them. -/
theorem C10_amended (zf : Zip) (cache : Cache) (e : XmlElem) :
    ((extract_shape_geometry zf cache e).1.x = (ownGeometry e).x ∨
      ((ownGeometry e).x = "?" ∧ ∃ mid, XmlElem.get e "Master" = some mid ∧
        (extract_shape_geometry zf cache e).1.x
          = (load_master_geometry zf mid cache).1.x)) ∧
    ((extract_shape_geometry zf cache e).1.y = (ownGeometry e).y ∨
      ((ownGeometry e).y = "?" ∧ ∃ mid, XmlElem.get e "Master" = some mid ∧
        (extract_shape_geometry zf cache e).1.y
          = (load_master_geometry zf mid cache).1.y)) ∧
    ((extract_shape_geometry zf cache e).1.width = (ownGeometry e).width ∨
      ((ownGeometry e).width = "?" ∧ ∃ mid, XmlElem.get e "Master" = some mid ∧
        (extract_shape_geometry zf cache e).1.width
          = (load_master_geometry zf mid cache).1.width)) ∧
    ((extract_shape_geometry zf cache e).1.height = (ownGeometry e).height ∨
      ((ownGeometry e).height = "?" ∧ ∃ mid, XmlElem.get e "Master" = some mid ∧
        (extract_shape_geometry zf cache e).1.height
          = (load_master_geometry zf mid cache).1.height)) ∧
    (extract_shape_geometry zf cache e).1.angle
      = dGetD (collectCells geomCellNames e) "Angle" "0" ∧
    (extract_shape_geometry zf cache e).1.flip_x
      = dGetD (collectCells geomCellNames e) "FlipX" "0" ∧
    (extract_shape_geometry zf cache e).1.flip_y
      = dGetD (collectCells geomCellNames e) "FlipY" "0" := by
  by_cases hcond : ((ownGeometry e).x == "?" || (ownGeometry e).y == "?") = true
  case neg =>
    have hres : extract_shape_geometry zf cache e = (ownGeometry e, cache) := by
      unfold extract_shape_geometry
      simp only []
      rw [if_neg hcond]
    rw [hres]
    exact ⟨Or.inl rfl, Or.inl rfl, Or.inl rfl, Or.inl rfl, rfl, rfl, rfl⟩
  case pos =>
    cases hma : XmlElem.get e "Master" with
    | none =>
      have hres : extract_shape_geometry zf cache e = (ownGeometry e, cache) := by
        unfold extract_shape_geometry
        simp only []
        rw [if_pos hcond, hma]
      rw [hres]
      exact ⟨Or.inl rfl, Or.inl rfl, Or.inl rfl, Or.inl rfl, rfl, rfl, rfl⟩
    | some mid =>
      by_cases hm0 : mid = ""
      · have hcnd : ¬((mid != "") = true) := by simp [hm0]
        have hres : extract_shape_geometry zf cache e = (ownGeometry e, cache) := by
          unfold extract_shape_geometry
          simp only []
          rw [if_pos hcond, hma]
          simp only []
          rw [if_neg hcnd]
        rw [hres]
        exact ⟨Or.inl rfl, Or.inl rfl, Or.inl rfl, Or.inl rfl, rfl, rfl, rfl⟩
      · have hcnd : (mid != "") = true := by simp [hm0]
        have hres : extract_shape_geometry zf cache e
            = (mergeMaster (ownGeometry e) (load_master_geometry zf mid cache).1,
               (load_master_geometry zf mid cache).2.1) := by
          unfold extract_shape_geometry
          simp only []
          rw [if_pos hcond, hma]
          simp only []
          rw [if_pos hcnd]
        rw [hres]
        refine ⟨?_, ?_, ?_, ?_, rfl, rfl, rfl⟩
        · by_cases h : (ownGeometry e).x = "?"
          · exact Or.inr ⟨h, mid, rfl, by simp [mergeMaster, h]⟩
          · exact Or.inl (by simp [mergeMaster, h])
        · by_cases h : (ownGeometry e).y = "?"
          · exact Or.inr ⟨h, mid, rfl, by simp [mergeMaster, h]⟩
          · exact Or.inl (by simp [mergeMaster, h])
        · by_cases h : (ownGeometry e).width = "?"
          · exact Or.inr ⟨h, mid, rfl, by simp [mergeMaster, h]⟩
          · exact Or.inl (by simp [mergeMaster, h])
        · by_cases h : (ownGeometry e).height = "?"
          · exact Or.inr ⟨h, mid, rfl, by simp [mergeMaster, h]⟩
          · exact Or.inl (by simp [mergeMaster, h])

end Vsdx
